import Mathlib

/-!
Verification development for the renter upload path
(src/modules/renter/upload.go).

The Go code is shallowly embedded: pure control flow becomes Lean
functions, channels become explicit lists of requests per worker
(any interleaving of the single shared queue is modelled by a
partition of the dispatched pieces into per-worker subsequences),
atomic counter increments become sums (addition commutes, so the
concurrent interleaving of atomic adds is irrelevant to the final
value), and the byte stream becomes a list of bytes followed by
either a clean EOF or a read error.
-/

namespace Renter

/-- Errors visible to the pipeline.  `ioErr` stands for an arbitrary
non-EOF stream read error, `encErr` for an erasure-encoding failure.
`fuelOut` is an artifact of the embedding: the Go chunk loop is
modelled with explicit fuel, and `fuelOut` is returned only when the
fuel runs out, which is proven impossible when the chunk size is
positive and the fuel exceeds the stream length. -/
inductive Err
  | ioErr
  | encErr
  | fuelOut
  | statErr
  | noHosts
  | insufficientFunds
deriving DecidableEq, Repr

/-- From src/modules/renter/upload.go: `type uploadPiece struct`.
Bytes are modelled as naturals. -/
structure uploadPiece where
  data : List Nat
  chunkIndex : Nat
  pieceIndex : Nat
deriving DecidableEq, Repr

/-- Modelled from the spec: the `fileContract` type is defined outside
this repository slice (only upload.go is present); per the spec a
contract is a host-identified accumulator of the pieces the host has
stored, read once at the end as a final snapshot, and keyed in the
file record by the host identity `IP`. -/
structure fileContract where
  IP : Nat
  pieces : List uploadPiece
deriving DecidableEq, Repr

/-- Modelled from the spec: a Host Session (the `uploader` interface in
upload.go; the concrete `newHostUploader` is outside this slice).
`ok p` is the outcome of `addPiece p` for this session (true =
success); per the spec a successful `addPiece` durably records the
piece in the contract, a failed one does not, and `fileContract`
returns the accumulated snapshot. -/
structure HostSession where
  ip : Nat
  ok : uploadPiece → Bool

/-- Result of one worker run: the pieces successfully delivered, the
pieces on which `addPiece` was attempted, the bytes this worker added
to the shared bytes-uploaded counter, and the contracts it sent down
the result channel. -/
structure WorkerRun where
  delivered : List uploadPiece
  attempted : List uploadPiece
  bytes : Nat
  sends : List fileContract
deriving DecidableEq, Repr

/-- The `for req := range reqChan` loop of `uploadWorker`
(upload.go lines 49-56): attempt each piece in order; on success add
its byte length to the counter and keep it in the contract; on the
first failure stop consuming.  Returns (delivered, attempted, bytes). -/
def workerLoop (s : HostSession) : List uploadPiece → List uploadPiece × List uploadPiece × Nat
  | [] => ([], [], 0)
  | p :: rest =>
    if s.ok p then
      let r := workerLoop s rest
      (p :: r.1, p :: r.2.1, p.data.length + r.2.2)
    else
      ([], [p], 0)

/-- `uploadWorker` (upload.go lines 48-59): run the consume loop on the
requests this worker receives from the shared channel, then send the
session's final `fileContract` down the response channel exactly once. -/
def uploadWorker (s : HostSession) (reqs : List uploadPiece) : WorkerRun :=
  let r := workerLoop s reqs
  ⟨r.1, r.2.1, r.2.2, [⟨s.ip, r.1⟩]⟩

/-- The source stream handed to `upload`: it yields `bytes`, then
either clean EOF (`tailErr = none`) or a read error. -/
structure ByteStream where
  bytes : List Nat
  tailErr : Option Err
deriving DecidableEq, Repr

/-- Outcome of one `io.ReadFull(r, chunk)` call with a buffer of
length `n` (upload.go lines 82-88): a full buffer, a zero-padded
partial buffer at EOF (Go's `io.ErrUnexpectedEOF`, accepted by the
code), clean EOF with zero bytes, or a fatal read error. -/
inductive ReadRes
  | chunkRead (chunk : List Nat) (rest : ByteStream)
  | eof
  | fail (e : Err)
deriving DecidableEq, Repr

/-- `io.ReadFull` semantics on the modelled stream: with at least `n`
bytes available the buffer fills; with zero bytes available it
reports EOF or the stream's error; with a short remainder it returns
the zero-padded buffer on clean EOF (`io.ErrUnexpectedEOF` in Go,
where the preallocated chunk buffer keeps its zero padding) and the
error otherwise. -/
def readFull (n : Nat) (s : ByteStream) : ReadRes :=
  if n ≤ s.bytes.length then
    .chunkRead (s.bytes.take n) ⟨s.bytes.drop n, s.tailErr⟩
  else if s.bytes.isEmpty then
    match s.tailErr with
    | none => .eof
    | some e => .fail e
  else
    match s.tailErr with
    | none => .chunkRead (s.bytes ++ List.replicate (n - s.bytes.length) 0) ⟨[], none⟩
    | some e => .fail e

/-- The chunk read/encode/dispatch loop of `upload` (lines 80-99).
Returns the pieces sent to the request channel in order, the number of
chunks-uploaded increments, and the fatal error if the loop aborted.
`fuel` bounds the iteration count (see `Err.fuelOut`). -/
def dispatchLoop (enc : List Nat → Except Err (List (List Nat))) (csize : Nat) :
    Nat → ByteStream → Nat → List uploadPiece × Nat × Option Err
  | 0, _, _ => ([], 0, some .fuelOut)
  | fuel + 1, s, i =>
    match readFull csize s with
    | .eof => ([], 0, none)
    | .fail e => ([], 0, some e)
    | .chunkRead chunk rest =>
      match enc chunk with
      | .error e => ([], 0, some e)
      | .ok ps =>
        let pieces := ps.enum.map fun jp => uploadPiece.mk jp.2 i jp.1
        let t := dispatchLoop enc csize fuel rest (i + 1)
        (pieces ++ t.1, t.2.1 + 1, t.2.2)

/-- `f.contracts[contract.IP] = contract`: Go map insertion, modelled
on an association list (replace the binding when the key exists,
append otherwise). -/
def mapInsert (m : List (Nat × fileContract)) (k : Nat) (v : fileContract) :
    List (Nat × fileContract) :=
  if m.any (fun kv => kv.1 = k) then
    m.map (fun kv => if kv.1 = k then (k, v) else kv)
  else
    m ++ [(k, v)]

/-- Observable result of one `upload` call (upload.go lines 63-109). -/
structure UploadResult where
  contracts : List (Nat × fileContract)
  bytesUploaded : Nat
  chunksUploaded : Nat
  reqChanClosed : Bool
  resultsDrained : Nat
  err : Option Err
deriving DecidableEq, Repr

/-- `(*file).upload` (lines 63-109).  `queues` is the partition of the
dispatched pieces among the workers induced by the shared request
channel: worker k receives exactly the subsequence `queues[k]` (the
theorems hypothesise that the queues join to a permutation of the
dispatched pieces, which is what the unbuffered shared channel
guarantees).  On the success path the code closes the request channel
and receives exactly one contract per host; on the fatal-error path
(read or encode failure) the code returns the error at once, without
closing the channel and without receiving any contract. -/
def upload (enc : List Nat → Except Err (List (List Nat))) (csize fuel : Nat)
    (r : ByteStream) (hosts : List HostSession) (queues : List (List uploadPiece)) :
    UploadResult :=
  let d := dispatchLoop enc csize fuel r 0
  let runs := (hosts.zip queues).map fun hq => uploadWorker hq.1 hq.2
  let bytes := (runs.map WorkerRun.bytes).sum
  match d.2.2 with
  | some e => ⟨[], bytes, d.2.1, false, 0, some e⟩
  | none =>
    let cs := (runs.map WorkerRun.sends).flatten
    ⟨cs.foldl (fun m c => mapInsert m c.IP c) [], bytes, d.2.1, true, hosts.length, none⟩

/-- A host descriptor from the host database (`modules.HostEntry`):
only the fields the embedded code reads (identity and price). -/
structure HostDesc where
  ip : Nat
  price : Nat
deriving DecidableEq, Repr

/-- Modelled from the spec: the erasure-code configuration
(`NewRSCode(dataPieces, parityPieces)` lives outside this slice).
Per the spec any `dataPieces` of the `dataPieces + parityPieces`
pieces reconstruct a chunk, so `NumPieces` is the total and
`MinPieces` is `dataPieces`. -/
structure ECode where
  dataPieces : Nat
  parityPieces : Nat
deriving DecidableEq, Repr

def ECode.numPieces (ec : ECode) : Nat := ec.dataPieces + ec.parityPieces

def ECode.minPieces (ec : ECode) : Nat := ec.dataPieces

/-- upload.go line 16: `defaultDuration = 6000`. -/
def defaultDuration : Nat := 6000

/-- upload.go line 17: `defaultDataPieces = 2`. -/
def defaultDataPieces : Nat := 2

/-- upload.go line 18: `defaultParityPieces = 10`. -/
def defaultParityPieces : Nat := 10

/-- upload.go line 24: `defaultPieceSize = 1<<22 - crypto.TwofishOverhead`.
The overhead constant lives outside this slice, so it stays a
parameter `ov`. -/
def defaultPieceSize (ov : Nat) : Nat := 2 ^ 22 - ov

/-- upload.go line 25: `smallPieceSize = 1<<16 - crypto.TwofishOverhead`. -/
def smallPieceSize (ov : Nat) : Nat := 2 ^ 16 - ov

/-- `crypto.SegmentSize`: the source comment at upload.go lines 21-23
states encrypted pieces must be a multiple of 64 (= SegmentSize). -/
def segmentSize : Nat := 64

/-- The host-sample size the code asks the host database for, at
upload.go line 123 and line 207: `up.ErasureCode.NumPieces() * 3 / 2`
with Go integer (floor) division. -/
def sampleSize (ec : ECode) : Nat := ec.numPieces * 3 / 2

/-- `modules.FileUploadParams` as read by upload.go: the two filepath
extensions, the nickname, and the caller-supplied (possibly zero,
meaning defaulted) duration, erasure code and piece size. -/
structure FileUploadParams where
  filenameExt : String
  nickname : String
  nicknameExt : String
  duration : Nat
  erasureCode : Option ECode
  pieceSize : Nat

/-- The renter's collaborators as seen by `Upload` and
`checkWalletBalance`: file open/stat results, the host database,
per-host session construction (`newHostUploader`; `none` = failure),
the wallet balance, the current file table, the source stream, the
erasure encoder, the channel interleaving (`queues`, see `upload`)
and the `saveFile` outcome. -/
structure RenterEnv where
  openOk : Bool
  statSize : Option Nat
  randomHosts : Nat → List HostDesc
  mkSession : HostDesc → Option HostSession
  balance : Nat
  files : List String
  stream : ByteStream
  enc : List Nat → Except Err (List (List Nat))
  queues : List (List uploadPiece)
  saveOk : Bool

/-- `checkWalletBalance` (upload.go lines 114-140), called after the
defaults are filled in, so it receives the effective erasure code and
duration.  It stats the file, samples `sampleSize ec` hosts, sums
their prices, errors on an empty sample, computes the average price
by integer division, multiplies by duration and size, doubles the
estimate, and errors when the buffered cost exceeds the confirmed
balance (`Cmp > 0`, strict). -/
def checkWalletBalance (r : RenterEnv) (ec : ECode) (dur : Nat) : Option Err :=
  match r.statSize with
  | none => some .statErr
  | some size =>
    let hosts := r.randomHosts (sampleSize ec)
    let total := (hosts.map HostDesc.price).sum
    if hosts.length = 0 then some .noHosts
    else
      let avg := total / hosts.length
      let buffered := avg * dur * size * 2
      if r.balance < buffered then some .insufficientFunds else none

/-- Errors `Upload` can return, in program order of their checks. -/
inductive UErr
  | extMismatch
  | openErr
  | nicknameExists
  | statErr
  | tooBig
  | balance (e : Err)
  | notEnoughHosts
  | uploadFailed
  | saveErr
deriving DecidableEq, Repr

/-- Observable trace of one `Upload` call: the returned error (none =
success), whether the default-parameter fill-in was reached, the
sample sizes passed to `hostDB.RandomHosts` in call order, whether
session construction was attempted, whether `f.upload` (and hence any
read of the source stream) ran, the piece size of the created file
record when one was created, and the final file table. -/
structure UploadTrace where
  outcome : Option UErr
  defaultsFilled : Bool
  hostsRequested : List Nat
  sessionsAttempted : Bool
  streamRead : Bool
  filePieceSize : Option Nat
  filesFinal : List String

/-- Effective duration after the default fill-in (upload.go 180-182). -/
def effDuration (up : FileUploadParams) : Nat :=
  if up.duration = 0 then defaultDuration else up.duration

/-- Effective erasure code after the default fill-in (lines 183-185). -/
def effEC (up : FileUploadParams) : ECode :=
  up.erasureCode.getD ⟨defaultDataPieces, defaultParityPieces⟩

/-- Effective piece size after the default fill-in (lines 186-192):
caller-supplied when nonzero, otherwise the large default when the
file is bigger than it and the small default otherwise. -/
def effPieceSize (ov : Nat) (up : FileUploadParams) (size : Nat) : Nat :=
  if up.pieceSize = 0 then
    if defaultPieceSize ov < size then defaultPieceSize ov else smallPieceSize ov
  else up.pieceSize

/-- `(*Renter).Upload` (upload.go lines 144-243), step by step in
source order: extension check; file open; nickname-conflict check;
stat; 5 GiB limit; default fill-in; wallet-balance check; file-record
creation; host selection (individual `newHostUploader` failures are
skipped) with the minimum-hosts check; insertion into the file table;
the parallel upload; removal of the record on upload failure; the
`.sia` save. -/
def Upload (ov : Nat) (r : RenterEnv) (up : FileUploadParams) : UploadTrace :=
  if up.filenameExt ≠ up.nicknameExt then
    ⟨some .extMismatch, false, [], false, false, none, r.files⟩
  else if !r.openOk then
    ⟨some .openErr, false, [], false, false, none, r.files⟩
  else if up.nickname ∈ r.files then
    ⟨some .nicknameExists, false, [], false, false, none, r.files⟩
  else
    match r.statSize with
    | none => ⟨some .statErr, false, [], false, false, none, r.files⟩
    | some size =>
      if 5 * 1024 * 1024 * 1024 < size then
        ⟨some .tooBig, false, [], false, false, none, r.files⟩
      else
        let dur := effDuration up
        let ec := effEC up
        let psize := effPieceSize ov up size
        match checkWalletBalance r ec dur with
        | some e => ⟨some (.balance e), true, [sampleSize ec], false, false, none, r.files⟩
        | none =>
          let hosts := (r.randomHosts (sampleSize ec)).filterMap r.mkSession
          if hosts.length < ec.minPieces then
            ⟨some .notEnoughHosts, true, [sampleSize ec, sampleSize ec], true, false,
              some psize, r.files⟩
          else
            let files1 := r.files ++ [up.nickname]
            let run := upload r.enc (psize * ec.dataPieces) (r.stream.bytes.length + 1)
              r.stream hosts r.queues
            match run.err with
            | some _ =>
              ⟨some .uploadFailed, true, [sampleSize ec, sampleSize ec], true, true,
                some psize, files1.filter (fun n => n ≠ up.nickname)⟩
            | none =>
              if !r.saveOk then
                ⟨some .saveErr, true, [sampleSize ec, sampleSize ec], true, true,
                  some psize, files1⟩
              else
                ⟨none, true, [sampleSize ec, sampleSize ec], true, true,
                  some psize, files1⟩

/-! ### Worker lemmas -/

/-- When every `addPiece` succeeds, the consume loop delivers every
request and adds each piece's byte length once. -/
theorem workerLoop_all_ok (s : HostSession) :
    ∀ reqs : List uploadPiece, (∀ q ∈ reqs, s.ok q = true) →
      workerLoop s reqs = (reqs, reqs, (reqs.map fun q => q.data.length).sum) := by
  intro reqs
  induction reqs with
  | nil => intro _; rfl
  | cons p rest ih =>
    intro h
    have hp : s.ok p = true := h p (List.mem_cons_self p rest)
    have hrest := ih fun q hq => h q (List.mem_cons_of_mem p hq)
    simp [workerLoop, hp, hrest]

/-- When the requests are a run of successes followed by a failing
piece, the loop delivers exactly the successful prefix, attempts the
failing piece once, attempts nothing after it, and counts only the
successful prefix's bytes. -/
theorem workerLoop_fail (s : HostSession) :
    ∀ (pre : List uploadPiece) (p : uploadPiece) (post : List uploadPiece),
      (∀ q ∈ pre, s.ok q = true) → s.ok p = false →
      workerLoop s (pre ++ p :: post) =
        (pre, pre ++ [p], (pre.map fun q => q.data.length).sum) := by
  intro pre
  induction pre with
  | nil =>
    intro p post _ hp
    simp [workerLoop, hp]
  | cons q rest ih =>
    intro p post h hp
    have hq : s.ok q = true := h q (List.mem_cons_self q rest)
    have hrest := ih p post (fun x hx => h x (List.mem_cons_of_mem q hx)) hp
    simp [workerLoop, hq, hrest]

/-- C2: every spawned `uploadWorker` sends exactly one `fileContract`
to the result sink before terminating — both when it exits because
the shared request channel was closed (all requests consumed) and
when it exits early because an `addPiece` call returned an error. -/
theorem uploadWorker_sends_exactly_one (s : HostSession) (reqs : List uploadPiece) :
    (uploadWorker s reqs).sends.length = 1 ∧
    ((∀ q ∈ reqs, s.ok q = true) →
      (uploadWorker s reqs).sends = [⟨s.ip, reqs⟩]) ∧
    (∀ (pre : List uploadPiece) (p : uploadPiece) (post : List uploadPiece),
      reqs = pre ++ p :: post → (∀ q ∈ pre, s.ok q = true) → s.ok p = false →
      (uploadWorker s reqs).sends = [⟨s.ip, pre⟩]) := by
  refine ⟨rfl, ?_, ?_⟩
  · intro h
    simp [uploadWorker, workerLoop_all_ok s reqs h]
  · intro pre p post hr hpre hp
    subst hr
    simp [uploadWorker, workerLoop_fail s pre p post hpre hp]

/-- C2 witness: a concrete worker run in each exit mode sends exactly
one contract. -/
theorem uploadWorker_sends_exactly_one_witness :
    (uploadWorker ⟨7, fun q => q.pieceIndex == 0⟩ [⟨[1, 2], 0, 0⟩]).sends = [⟨7, [⟨[1, 2], 0, 0⟩]⟩] ∧
    (uploadWorker ⟨7, fun q => q.pieceIndex == 0⟩ [⟨[1, 2], 0, 0⟩, ⟨[3], 0, 1⟩, ⟨[4], 0, 2⟩]).sends =
      [⟨7, [⟨[1, 2], 0, 0⟩]⟩] := by
  constructor
  · exact (uploadWorker_sends_exactly_one ⟨7, fun q => q.pieceIndex == 0⟩
      [⟨[1, 2], 0, 0⟩]).2.1 (by decide)
  · exact (uploadWorker_sends_exactly_one ⟨7, fun q => q.pieceIndex == 0⟩
      [⟨[1, 2], 0, 0⟩, ⟨[3], 0, 1⟩, ⟨[4], 0, 2⟩]).2.2 [⟨[1, 2], 0, 0⟩] ⟨[3], 0, 1⟩ [⟨[4], 0, 2⟩]
      rfl (by decide) (by decide)

/-- C4: for every piece a worker takes, a successful `addPiece` adds
exactly the piece's byte length to the bytes-uploaded counter; a
failed `addPiece` stops the worker (pieces after the failure are
never attempted), the failed piece is attempted exactly once (no
re-attempt), and its length is not added to the counter. -/
theorem uploadWorker_piece_accounting (s : HostSession) :
    (∀ reqs : List uploadPiece, (∀ q ∈ reqs, s.ok q = true) →
      uploadWorker s reqs =
        ⟨reqs, reqs, (reqs.map fun q => q.data.length).sum, [⟨s.ip, reqs⟩]⟩) ∧
    (∀ (pre : List uploadPiece) (p : uploadPiece) (post : List uploadPiece),
      (∀ q ∈ pre, s.ok q = true) → s.ok p = false →
      uploadWorker s (pre ++ p :: post) =
        ⟨pre, pre ++ [p], (pre.map fun q => q.data.length).sum, [⟨s.ip, pre⟩]⟩) := by
  constructor
  · intro reqs h
    simp [uploadWorker, workerLoop_all_ok s reqs h]
  · intro pre p post hpre hp
    simp [uploadWorker, workerLoop_fail s pre p post hpre hp]

/-- C4 witness: with a session that accepts only pieces of index 0,
the worker on [ok piece of 2 bytes, failing piece, further piece]
counts exactly 2 bytes, attempts the failing piece once, and never
touches the piece after it. -/
theorem uploadWorker_piece_accounting_witness :
    uploadWorker ⟨7, fun q => q.pieceIndex == 0⟩ [⟨[1, 2], 0, 0⟩, ⟨[3, 4], 0, 1⟩, ⟨[5], 0, 2⟩] =
      ⟨[⟨[1, 2], 0, 0⟩], [⟨[1, 2], 0, 0⟩, ⟨[3, 4], 0, 1⟩], 2, [⟨7, [⟨[1, 2], 0, 0⟩]⟩]⟩ :=
  (uploadWorker_piece_accounting ⟨7, fun q => q.pieceIndex == 0⟩).2
    [⟨[1, 2], 0, 0⟩] ⟨[3, 4], 0, 1⟩ [⟨[5], 0, 2⟩] (by decide) (by decide)

/-- C1: refutation of the claimed drain-on-fatal-error behavior.  With
a stream whose very first read fails and two spawned workers, `upload`
returns the read error with the request channel not closed and zero
results drained from the result sink (the code at upload.go line 87
returns before lines 102-106), so both workers stay blocked on the
open request channel. -/
theorem upload_fatal_error_no_drain :
    upload (fun c => Except.ok [c]) 4 1 ⟨[], some Err.ioErr⟩
      [⟨0, fun _ => true⟩, ⟨1, fun _ => true⟩] [[], []] =
      ⟨[], 0, 0, false, 0, some Err.ioErr⟩ := rfl

/-! ### Dispatcher lemmas -/

/-- A positive-length read on an exhausted clean stream reports EOF. -/
theorem readFull_eof (n : Nat) (hn : 0 < n) : readFull n ⟨[], none⟩ = .eof := by
  simp [readFull, show ¬ n ≤ 0 by omega]

/-- A full buffer is available: the read succeeds and consumes it. -/
theorem readFull_full (n : Nat) (bs : List Nat) (te : Option Err) (h : n ≤ bs.length) :
    readFull n ⟨bs, te⟩ = .chunkRead (bs.take n) ⟨bs.drop n, te⟩ := by
  simp [readFull, h]

/-- A short remainder on a clean stream: the zero-padded buffer is
returned (Go's `io.ErrUnexpectedEOF` path, accepted by upload.go). -/
theorem readFull_partial (n : Nat) (bs : List Nat) (hb : bs ≠ []) (hlen : bs.length < n) :
    readFull n ⟨bs, none⟩ = .chunkRead (bs ++ List.replicate (n - bs.length) 0) ⟨[], none⟩ := by
  have h2 : bs.isEmpty = false := by simpa [List.isEmpty_iff] using hb
  simp [readFull, show ¬ n ≤ bs.length by omega, h2]

/-- The stream's error surfaces as soon as the read reaches it. -/
theorem readFull_err (n : Nat) (bs : List Nat) (e : Err) (hlen : bs.length < n) :
    readFull n ⟨bs, some e⟩ = .fail e := by
  cases bs with
  | nil => simp [readFull, show ¬ n ≤ 0 by omega]
  | cons b bs' =>
    have h2 : (b :: bs').isEmpty = false := by simp
    have hlen' : bs'.length + 1 < n := by simpa using hlen
    simp [readFull, show ¬ n ≤ (b :: bs').length by omega, h2, hlen']

/-- One unfolding step of the chunk loop. -/
theorem dispatchLoop_succ (enc : List Nat → Except Err (List (List Nat))) (csize fuel : Nat)
    (s : ByteStream) (i : Nat) :
    dispatchLoop enc csize (fuel + 1) s i =
      match readFull csize s with
      | .eof => ([], 0, none)
      | .fail e => ([], 0, some e)
      | .chunkRead chunk rest =>
        match enc chunk with
        | .error e => ([], 0, some e)
        | .ok ps =>
          let pieces := ps.enum.map fun jp => uploadPiece.mk jp.2 i jp.1
          let t := dispatchLoop enc csize fuel rest (i + 1)
          (pieces ++ t.1, t.2.1 + 1, t.2.2) := rfl

/-- C5: on every chunk read the dispatcher distinguishes three cases:
zero bytes at clean end of stream terminates the loop normally with
no error; a partial read at end of stream is accepted, zero-padded to
the chunk buffer, encoded and dispatched as the valid final chunk;
any other read error is returned immediately, with no pieces from
that read or any later chunk dispatched, and `upload` returns that
error. -/
theorem dispatchLoop_read_cases (enc : List Nat → Except Err (List (List Nat)))
    (csize fuel : Nat) (s : ByteStream) (i : Nat) (hcs : 0 < csize) :
    (s.bytes = [] → s.tailErr = none →
      dispatchLoop enc csize (fuel + 2) s i = ([], 0, none)) ∧
    (s.bytes ≠ [] → s.bytes.length < csize → s.tailErr = none →
      ∀ ps, enc (s.bytes ++ List.replicate (csize - s.bytes.length) 0) = Except.ok ps →
      dispatchLoop enc csize (fuel + 2) s i =
        (ps.enum.map fun jp => uploadPiece.mk jp.2 i jp.1, 1, none)) ∧
    (∀ e, s.bytes.length < csize → s.tailErr = some e →
      dispatchLoop enc csize (fuel + 2) s i = ([], 0, some e) ∧
      ∀ hosts queues, (upload enc csize (fuel + 2) s hosts queues).err = some e) := by
  obtain ⟨bs, te⟩ := s
  refine ⟨?_, ?_, ?_⟩
  · intro hb ht
    subst hb; subst ht
    rw [dispatchLoop_succ, readFull_eof csize hcs]
  · intro hb hlen ht ps hps
    subst ht
    simp only [ByteStream.bytes] at hb hlen
    simp only at hps
    rw [dispatchLoop_succ, readFull_partial csize bs hb hlen]
    simp only [hps]
    rw [dispatchLoop_succ, readFull_eof csize hcs]
    simp
  · intro e hlen ht
    subst ht
    simp only [ByteStream.bytes] at hlen
    have hd : ∀ j, dispatchLoop enc csize (fuel + 2) ⟨bs, some e⟩ j = ([], 0, some e) := by
      intro j
      rw [dispatchLoop_succ, readFull_err csize bs e hlen]
    refine ⟨hd i, ?_⟩
    intro hosts queues
    simp [upload, hd 0]

/-- C5 witness: a 2-byte stream with clean EOF and chunk size 4 yields
exactly one zero-padded final chunk and a normal termination. -/
theorem dispatchLoop_read_cases_witness :
    dispatchLoop (fun c => Except.ok [c]) 4 2 ⟨[1, 2], none⟩ 0 =
      ([⟨[1, 2, 0, 0], 0, 0⟩], 1, none) :=
  (dispatchLoop_read_cases (fun c => Except.ok [c]) 4 0 ⟨[1, 2], none⟩ 0 (by decide)).2.1
    (by decide) (by decide) rfl [[1, 2, 0, 0]] rfl

/-- A clean stream together with an encoder that succeeds on every
buffer never aborts the dispatch loop, provided the chunk size is
positive and the fuel exceeds the stream length (each iteration
consumes at least one byte, so the fuel bound is never reached). -/
theorem dispatchLoop_clean_no_err (enc : List Nat → Except Err (List (List Nat)))
    (csize : Nat) (hcs : 0 < csize) (henc : ∀ c, ∃ ps, enc c = Except.ok ps) :
    ∀ (fuel : Nat) (s : ByteStream) (i : Nat), s.tailErr = none → s.bytes.length < fuel →
      (dispatchLoop enc csize fuel s i).2.2 = none := by
  intro fuel
  induction fuel with
  | zero => intro s i _ hf; omega
  | succ fuel ih =>
    intro s i ht hf
    obtain ⟨bs, te⟩ := s
    subst ht
    simp only [ByteStream.bytes] at hf
    by_cases h1 : csize ≤ bs.length
    · obtain ⟨ps, hps⟩ := henc (bs.take csize)
      rw [dispatchLoop_succ, readFull_full csize bs none h1]
      simp only [hps]
      have := ih ⟨bs.drop csize, none⟩ (i + 1) rfl (by simp; omega)
      simpa using this
    · by_cases h2 : bs = []
      · subst h2
        rw [dispatchLoop_succ, readFull_eof csize hcs]
      · obtain ⟨ps, hps⟩ := henc (bs ++ List.replicate (csize - bs.length) 0)
        have hlen : 0 < bs.length := List.length_pos.mpr h2
        rw [dispatchLoop_succ, readFull_partial csize bs h2 (by omega)]
        simp only [hps]
        have := ih ⟨[], none⟩ (i + 1) rfl (by simp; omega)
        simpa using this

/-! ### Orchestrator lemmas -/

/-- A worker whose session accepts every piece delivers its whole
queue. -/
theorem uploadWorker_all_ok (s : HostSession) (reqs : List uploadPiece)
    (h : ∀ q ∈ reqs, s.ok q = true) :
    uploadWorker s reqs =
      ⟨reqs, reqs, (reqs.map fun q => q.data.length).sum, [⟨s.ip, reqs⟩]⟩ := by
  simp [uploadWorker, workerLoop_all_ok s reqs h]

/-- Folding Go-map insertions over contracts with pairwise-distinct,
previously-absent keys appends one binding per contract. -/
theorem foldl_mapInsert_fresh :
    ∀ (cs : List fileContract) (m : List (Nat × fileContract)),
      (∀ c ∈ cs, ∀ kv ∈ m, ¬ kv.1 = c.IP) → (cs.map fileContract.IP).Nodup →
      cs.foldl (fun m c => mapInsert m c.IP c) m = m ++ cs.map fun c => (c.IP, c) := by
  intro cs
  induction cs with
  | nil => intro m _ _; simp
  | cons c rest ih =>
    intro m hfresh hnd
    have hany : (m.any fun kv => kv.1 = c.IP) = false := by
      simp only [List.any_eq_false]
      intro kv hkv
      simpa using hfresh c (List.mem_cons_self c rest) kv hkv
    have hstep : mapInsert m c.IP c = m ++ [(c.IP, c)] := by
      simp [mapInsert, hany]
    rw [List.map_cons] at hnd
    have hnd' := List.nodup_cons.mp hnd
    rw [List.foldl_cons, hstep, ih (m ++ [(c.IP, c)]) ?_ hnd'.2]
    · simp
    · intro c' hc' kv hkv
      rcases List.mem_append.mp hkv with hm | hs
      · exact hfresh c' (List.mem_cons_of_mem c hc') kv hm
      · have : kv = (c.IP, c) := by simpa using hs
        subst this
        intro hkeq
        exact hnd'.1 (List.mem_map.mpr ⟨c', hc', by simpa using hkeq.symm⟩)

/-- Flattening a list of singleton lists recovers the mapped list. -/
theorem flatten_map_singleton {α β : Type} (l : List α) (g : α → β) :
    (l.map fun x => [g x]).flatten = l.map g := by
  induction l with
  | nil => rfl
  | cons x xs ih => simp [ih]

/-- When the dispatch loop finishes without a fatal error, `upload`
closes the request channel, drains one contract per host and inserts
each into the contract map. -/
theorem upload_success_eq (enc : List Nat → Except Err (List (List Nat))) (csize fuel : Nat)
    (stream : ByteStream) (hosts : List HostSession) (queues : List (List uploadPiece))
    (hderr : (dispatchLoop enc csize fuel stream 0).2.2 = none) :
    upload enc csize fuel stream hosts queues =
      ⟨((((hosts.zip queues).map fun hq => uploadWorker hq.1 hq.2).map WorkerRun.sends).flatten).foldl
          (fun m c => mapInsert m c.IP c) [],
        (((hosts.zip queues).map fun hq => uploadWorker hq.1 hq.2).map WorkerRun.bytes).sum,
        (dispatchLoop enc csize fuel stream 0).2.1, true, hosts.length, none⟩ := by
  simp only [upload, hderr]

/-- C3: with N host sessions of pairwise-distinct identities that
succeed on every `addPiece`, a clean stream and a total encoder,
`upload` returns nil, the contract map holds exactly N entries keyed
by the host identities, and the bytes-uploaded counter equals the sum
of the byte lengths of all dispatched pieces (all of which were
delivered, since every `addPiece` succeeded).  `queues` is the
partition of the dispatched pieces induced by the shared channel. -/
theorem upload_all_success (enc : List Nat → Except Err (List (List Nat))) (csize fuel : Nat)
    (stream : ByteStream) (hosts : List HostSession) (queues : List (List uploadPiece))
    (hcs : 0 < csize) (hfuel : stream.bytes.length < fuel) (hclean : stream.tailErr = none)
    (henc : ∀ c, ∃ ps, enc c = Except.ok ps)
    (hlen : queues.length = hosts.length)
    (hdist : (hosts.map HostSession.ip).Nodup)
    (hok : ∀ h ∈ hosts, ∀ p, h.ok p = true)
    (hperm : queues.flatten.Perm (dispatchLoop enc csize fuel stream 0).1) :
    (upload enc csize fuel stream hosts queues).err = none ∧
    (upload enc csize fuel stream hosts queues).resultsDrained = hosts.length ∧
    (upload enc csize fuel stream hosts queues).contracts.length = hosts.length ∧
    (upload enc csize fuel stream hosts queues).contracts.map Prod.fst =
      hosts.map HostSession.ip ∧
    (upload enc csize fuel stream hosts queues).bytesUploaded =
      (((dispatchLoop enc csize fuel stream 0).1).map fun p => p.data.length).sum := by
  have hderr : (dispatchLoop enc csize fuel stream 0).2.2 = none :=
    dispatchLoop_clean_no_err enc csize hcs henc fuel stream 0 hclean hfuel
  have hruns : ((hosts.zip queues).map fun hq => uploadWorker hq.1 hq.2) =
      (hosts.zip queues).map fun hq =>
        ⟨hq.2, hq.2, (hq.2.map fun q => q.data.length).sum, [⟨hq.1.ip, hq.2⟩]⟩ := by
    apply List.map_congr_left
    intro hq hmem
    obtain ⟨h, q⟩ := hq
    exact uploadWorker_all_ok h q fun p _ => hok h (List.of_mem_zip hmem).1 p
  have hmapf : ((hosts.zip queues).map fun hq => hq.1.ip) = hosts.map HostSession.ip := by
    have h1 : ((hosts.zip queues).map fun hq => hq.1.ip) =
        ((hosts.zip queues).map Prod.fst).map HostSession.ip := by
      simp [List.map_map, Function.comp]
    rw [h1, List.map_fst_zip hosts queues hlen.ge]
  have hcsL : ((((hosts.zip queues).map fun hq => uploadWorker hq.1 hq.2).map
      WorkerRun.sends).flatten) =
      (hosts.zip queues).map fun hq => (⟨hq.1.ip, hq.2⟩ : fileContract) := by
    rw [hruns, List.map_map]
    have h1 : (WorkerRun.sends ∘ fun hq : HostSession × List uploadPiece =>
        (⟨hq.2, hq.2, (hq.2.map fun q => q.data.length).sum,
          [⟨hq.1.ip, hq.2⟩]⟩ : WorkerRun)) =
        fun hq : HostSession × List uploadPiece => [(⟨hq.1.ip, hq.2⟩ : fileContract)] := rfl
    rw [h1, flatten_map_singleton]
  have hkeys : (((hosts.zip queues).map fun hq =>
      (⟨hq.1.ip, hq.2⟩ : fileContract)).map fileContract.IP) = hosts.map HostSession.ip := by
    rw [List.map_map]
    exact hmapf
  have hfold : ((((hosts.zip queues).map fun hq => uploadWorker hq.1 hq.2).map
      WorkerRun.sends).flatten).foldl (fun m c => mapInsert m c.IP c) [] =
      ((hosts.zip queues).map fun hq => (⟨hq.1.ip, hq.2⟩ : fileContract)).map
        fun c => (c.IP, c) := by
    rw [hcsL]
    have := foldl_mapInsert_fresh
      ((hosts.zip queues).map fun hq => (⟨hq.1.ip, hq.2⟩ : fileContract)) []
      (by intro c _ kv hkv; simp at hkv) (by rw [hkeys]; exact hdist)
    simpa using this
  have hbytes : (((hosts.zip queues).map fun hq => uploadWorker hq.1 hq.2).map
      WorkerRun.bytes).sum =
      (((dispatchLoop enc csize fuel stream 0).1).map fun p => p.data.length).sum := by
    rw [hruns, List.map_map]
    have h1 : (WorkerRun.bytes ∘ fun hq : HostSession × List uploadPiece =>
        (⟨hq.2, hq.2, (hq.2.map fun q => q.data.length).sum,
          [⟨hq.1.ip, hq.2⟩]⟩ : WorkerRun)) =
        (fun q : List uploadPiece => (q.map fun p => p.data.length).sum) ∘ Prod.snd := rfl
    rw [h1, ← List.map_map, List.map_snd_zip hosts queues hlen.le]
    have h2 : (queues.map fun q => (q.map fun p => p.data.length).sum).sum =
        ((queues.flatten).map fun p => p.data.length).sum := by
      rw [List.map_flatten, List.sum_flatten, List.map_map]
      rfl
    rw [h2]
    exact (hperm.map fun p => p.data.length).sum_eq
  rw [upload_success_eq enc csize fuel stream hosts queues hderr]
  refine ⟨rfl, rfl, ?_, ?_, hbytes⟩
  · simp only [hfold, List.length_map, List.length_zip]
    omega
  · rw [hfold, List.map_map, List.map_map]
    exact hmapf

/-- C3 witness: two all-success hosts, a four-byte stream in two
chunks of two pieces each; the run returns nil, yields two contracts
keyed 0 and 1, and counts all eight piece bytes. -/
theorem upload_all_success_witness :
    (upload (fun c => Except.ok [c, c]) 2 5 ⟨[9, 8, 7, 6], none⟩
      [⟨0, fun _ => true⟩, ⟨1, fun _ => true⟩]
      [[⟨[9, 8], 0, 0⟩, ⟨[7, 6], 1, 0⟩], [⟨[9, 8], 0, 1⟩, ⟨[7, 6], 1, 1⟩]]).err = none ∧
    (upload (fun c => Except.ok [c, c]) 2 5 ⟨[9, 8, 7, 6], none⟩
      [⟨0, fun _ => true⟩, ⟨1, fun _ => true⟩]
      [[⟨[9, 8], 0, 0⟩, ⟨[7, 6], 1, 0⟩], [⟨[9, 8], 0, 1⟩, ⟨[7, 6], 1, 1⟩]]).contracts.length = 2 ∧
    (upload (fun c => Except.ok [c, c]) 2 5 ⟨[9, 8, 7, 6], none⟩
      [⟨0, fun _ => true⟩, ⟨1, fun _ => true⟩]
      [[⟨[9, 8], 0, 0⟩, ⟨[7, 6], 1, 0⟩], [⟨[9, 8], 0, 1⟩, ⟨[7, 6], 1, 1⟩]]).contracts.map Prod.fst =
      [0, 1] ∧
    (upload (fun c => Except.ok [c, c]) 2 5 ⟨[9, 8, 7, 6], none⟩
      [⟨0, fun _ => true⟩, ⟨1, fun _ => true⟩]
      [[⟨[9, 8], 0, 0⟩, ⟨[7, 6], 1, 0⟩], [⟨[9, 8], 0, 1⟩, ⟨[7, 6], 1, 1⟩]]).bytesUploaded = 8 := by
  have hok : ∀ h ∈ [(⟨0, fun _ => true⟩ : HostSession), ⟨1, fun _ => true⟩],
      ∀ p : uploadPiece, h.ok p = true := by
    intro h hm p
    simp at hm
    rcases hm with rfl | rfl <;> rfl
  have h := upload_all_success (fun c => Except.ok [c, c]) 2 5 ⟨[9, 8, 7, 6], none⟩
    [⟨0, fun _ => true⟩, ⟨1, fun _ => true⟩]
    [[⟨[9, 8], 0, 0⟩, ⟨[7, 6], 1, 0⟩], [⟨[9, 8], 0, 1⟩, ⟨[7, 6], 1, 1⟩]]
    (by decide) (by decide) rfl (fun c => ⟨[c, c], rfl⟩) (by decide) (by decide) hok (by decide)
  exact ⟨h.1, h.2.2.1, h.2.2.2.1, h.2.2.2.2⟩

/-! ### Upload (Renter level) theorems -/

/-- C10: a file strictly larger than 5 * 1024 * 1024 * 1024 bytes is
rejected before the default parameters are filled in, before the
wallet-balance check, before any host is requested or contacted, and
without touching the renter's file table (the record is only inserted
much later, at upload.go line 221). -/
theorem Upload_size_limit (ov : Nat) (r : RenterEnv) (up : FileUploadParams) (size : Nat)
    (hext : up.filenameExt = up.nicknameExt) (hopen : r.openOk = true)
    (hnick : up.nickname ∉ r.files) (hstat : r.statSize = some size)
    (hbig : 5 * 1024 * 1024 * 1024 < size) :
    Upload ov r up = ⟨some UErr.tooBig, false, [], false, false, none, r.files⟩ := by
  simp [Upload, hext, hopen, hnick, hstat, hbig]

/-- C10 witness: a file of 5 GiB + 1 bytes is rejected as too big with
an untouched trace. -/
theorem Upload_size_limit_witness :
    (Upload 0
      ⟨true, some (5 * 1024 * 1024 * 1024 + 1), fun _ => [], fun _ => none, 0, [],
        ⟨[], none⟩, fun _ => Except.ok [], [], true⟩
      ⟨".txt", "a.txt", ".txt", 0, none, 0⟩).outcome = some UErr.tooBig := by
  have h := Upload_size_limit 0
    ⟨true, some (5 * 1024 * 1024 * 1024 + 1), fun _ => [], fun _ => none, 0, [],
      ⟨[], none⟩, fun _ => Except.ok [], [], true⟩
    ⟨".txt", "a.txt", ".txt", 0, none, 0⟩ (5 * 1024 * 1024 * 1024 + 1)
    rfl rfl (by simp) rfl (by omega)
  rw [h]

/-- C6: individual session-construction failures are skipped, and
`Upload` proceeds with whichever sessions were constructed; but when
strictly fewer sessions than the erasure code's minimum-pieces
threshold were constructed, `Upload` fails with the
insufficient-hosts error before reading any byte of the stream and
with an unchanged file table, while a count at or above the threshold
lets the upload (and hence stream reading) proceed. -/
theorem Upload_host_threshold (ov : Nat) (r : RenterEnv) (up : FileUploadParams) (size : Nat)
    (hext : up.filenameExt = up.nicknameExt) (hopen : r.openOk = true)
    (hnick : up.nickname ∉ r.files) (hstat : r.statSize = some size)
    (hsize : size ≤ 5 * 1024 * 1024 * 1024)
    (hchk : checkWalletBalance r (effEC up) (effDuration up) = none) :
    (((r.randomHosts (sampleSize (effEC up))).filterMap r.mkSession).length <
        (effEC up).minPieces →
      (Upload ov r up).outcome = some UErr.notEnoughHosts ∧
      (Upload ov r up).streamRead = false ∧
      (Upload ov r up).filesFinal = r.files) ∧
    ((effEC up).minPieces ≤
        ((r.randomHosts (sampleSize (effEC up))).filterMap r.mkSession).length →
      (Upload ov r up).streamRead = true) := by
  constructor
  · intro hlt
    refine ⟨?_, ?_, ?_⟩ <;>
      simp [Upload, hext, hopen, hnick, hstat, show ¬ 5 * 1024 * 1024 * 1024 < size by omega,
        hchk, hlt]
  · intro hge
    have hnlt : ¬ ((r.randomHosts (sampleSize (effEC up))).filterMap r.mkSession).length <
        (effEC up).minPieces := by omega
    have hbig : ¬ 5 * 1024 * 1024 * 1024 < size := by omega
    cases hrun : (upload r.enc (effPieceSize ov up size * (effEC up).dataPieces)
        (r.stream.bytes.length + 1) r.stream
        ((r.randomHosts (sampleSize (effEC up))).filterMap r.mkSession) r.queues).err with
    | none =>
      cases hsave : r.saveOk with
      | false => simp [Upload, hext, hopen, hnick, hstat, hchk, hnlt, hbig, hrun, hsave]
      | true => simp [Upload, hext, hopen, hnick, hstat, hchk, hnlt, hbig, hrun, hsave]
    | some e => simp [Upload, hext, hopen, hnick, hstat, hchk, hnlt, hbig, hrun]

/-- Session-construction collaborator for the C6 witness: only the
host with identity 0 yields a session. -/
def onlyHostZero (h : HostDesc) : Option HostSession :=
  if h.ip = 0 then some ⟨h.ip, fun _ => true⟩ else none

/-- Environment for the C6 witness: five candidate hosts, of which
only one can be engaged. -/
def fiveHostEnv : RenterEnv :=
  ⟨true, some 1, fun _ => [⟨0, 1⟩, ⟨1, 1⟩, ⟨2, 1⟩, ⟨3, 1⟩, ⟨4, 1⟩], onlyHostZero, 1000, [],
    ⟨[], none⟩, fun _ => Except.ok [], [], true⟩

/-- C6 witness: five candidates, erasure minimum 2, a single
constructible session; `Upload` fails with the insufficient-hosts
error and never reads the stream. -/
theorem Upload_host_threshold_witness :
    (Upload 0 fiveHostEnv ⟨".txt", "a.txt", ".txt", 1, some ⟨2, 3⟩, 1⟩).outcome =
      some UErr.notEnoughHosts ∧
    (Upload 0 fiveHostEnv ⟨".txt", "a.txt", ".txt", 1, some ⟨2, 3⟩, 1⟩).streamRead = false := by
  have h := (Upload_host_threshold 0 fiveHostEnv ⟨".txt", "a.txt", ".txt", 1, some ⟨2, 3⟩, 1⟩ 1
    rfl rfl (by simp [fiveHostEnv]) rfl (by omega) rfl).1 (by decide)
  exact ⟨h.1, h.2.1⟩

/-- Environment for the C7 and C9 runs: one candidate host of price 1,
no constructible session, ample balance, a one-byte file. -/
def oneHostEnv : RenterEnv :=
  ⟨true, some 1, fun _ => [⟨5, 1⟩], fun _ => none, 1000, [],
    ⟨[], none⟩, fun _ => Except.ok [], [], true⟩

/-- C7 counterexample: with the erasure configuration (1 data, 2
parity), numPieces = 3, the code requests `3 * 3 / 2 = 4` candidates
at both call sites (Go integer division), while
ceil(numPieces * 1.5) = (3 * 3 + 1) / 2 = 5; the claimed count is
wrong for every odd numPieces. -/
theorem sampleSize_not_ceil :
    (Upload 0 oneHostEnv ⟨".txt", "a.txt", ".txt", 1, some ⟨1, 2⟩, 1⟩).hostsRequested =
      [sampleSize ⟨1, 2⟩, sampleSize ⟨1, 2⟩] ∧
    sampleSize ⟨1, 2⟩ = 4 ∧
    (3 * (ECode.mk 1 2).numPieces + 1) / 2 = 5 ∧
    sampleSize ⟨1, 2⟩ ≠ (3 * (ECode.mk 1 2).numPieces + 1) / 2 := by
  refine ⟨rfl, rfl, rfl, by decide⟩

/-- C7 amended: both call sites (the balance check at upload.go line
123 and host selection at line 207) request exactly
`numPieces * 3 / 2` candidates with floor (integer) division,
independent of how many hosts are reachable; this equals
ceil(numPieces * 1.5) only when numPieces is even. -/
theorem sampleSize_both_sites (ov : Nat) (r : RenterEnv) (up : FileUploadParams) (size : Nat)
    (hext : up.filenameExt = up.nicknameExt) (hopen : r.openOk = true)
    (hnick : up.nickname ∉ r.files) (hstat : r.statSize = some size)
    (hsize : size ≤ 5 * 1024 * 1024 * 1024)
    (hchk : checkWalletBalance r (effEC up) (effDuration up) = none) :
    (Upload ov r up).hostsRequested = [sampleSize (effEC up), sampleSize (effEC up)] ∧
    (∀ ec : ECode, sampleSize ec = ec.numPieces * 3 / 2) ∧
    (∀ ec : ECode, ec.numPieces % 2 = 0 →
      sampleSize ec = (3 * ec.numPieces + 1) / 2) := by
  refine ⟨?_, fun ec => rfl, ?_⟩
  · have hbig : ¬ 5 * 1024 * 1024 * 1024 < size := by omega
    by_cases hlt : ((r.randomHosts (sampleSize (effEC up))).filterMap r.mkSession).length <
        (effEC up).minPieces
    · simp [Upload, hext, hopen, hnick, hstat, hchk, hlt, hbig]
    · cases hrun : (upload r.enc (effPieceSize ov up size * (effEC up).dataPieces)
          (r.stream.bytes.length + 1) r.stream
          ((r.randomHosts (sampleSize (effEC up))).filterMap r.mkSession) r.queues).err with
      | none =>
        cases hsave : r.saveOk with
        | false => simp [Upload, hext, hopen, hnick, hstat, hchk, hlt, hbig, hrun, hsave]
        | true => simp [Upload, hext, hopen, hnick, hstat, hchk, hlt, hbig, hrun, hsave]
      | some e => simp [Upload, hext, hopen, hnick, hstat, hchk, hlt, hbig, hrun]
  · intro ec h
    unfold sampleSize
    omega

/-- C7 amended witness: the concrete run requests 4 candidates at both
call sites. -/
theorem sampleSize_both_sites_witness :
    (Upload 0 oneHostEnv ⟨".txt", "a.txt", ".txt", 1, some ⟨1, 2⟩, 1⟩).hostsRequested = [4, 4] :=
  (sampleSize_both_sites 0 oneHostEnv ⟨".txt", "a.txt", ".txt", 1, some ⟨1, 2⟩, 1⟩ 1
    rfl rfl (by simp [oneHostEnv]) rfl (by omega) rfl).1

/-- C8: `checkWalletBalance` (with a readable file) returns an error
iff the sampled host list is empty or twice the average sampled host
price times duration times file size strictly exceeds the confirmed
balance — the estimate is the price-duration-size product doubled as
a safety buffer; and a balance rejection makes `Upload` return before
any session construction or stream read. -/
theorem checkWalletBalance_spec (r : RenterEnv) (ec : ECode) (dur size : Nat)
    (hstat : r.statSize = some size) :
    (checkWalletBalance r ec dur ≠ none ↔
      r.randomHosts (sampleSize ec) = [] ∨
      r.balance <
        2 * (((r.randomHosts (sampleSize ec)).map HostDesc.price).sum /
          (r.randomHosts (sampleSize ec)).length) * dur * size) ∧
    (∀ (ov : Nat) (up : FileUploadParams) (e : Err),
      up.filenameExt = up.nicknameExt → r.openOk = true → up.nickname ∉ r.files →
      size ≤ 5 * 1024 * 1024 * 1024 →
      checkWalletBalance r (effEC up) (effDuration up) = some e →
      (Upload ov r up).outcome = some (UErr.balance e) ∧
      (Upload ov r up).sessionsAttempted = false ∧
      (Upload ov r up).streamRead = false) := by
  constructor
  · have harith : ((r.randomHosts (sampleSize ec)).map HostDesc.price).sum /
          (r.randomHosts (sampleSize ec)).length * dur * size * 2 =
        2 * (((r.randomHosts (sampleSize ec)).map HostDesc.price).sum /
          (r.randomHosts (sampleSize ec)).length) * dur * size := by ring
    simp only [checkWalletBalance, hstat]
    by_cases h0 : (r.randomHosts (sampleSize ec)).length = 0
    · have hnil : r.randomHosts (sampleSize ec) = [] := List.length_eq_zero.mp h0
      simp [h0, hnil]
    · have hnil : r.randomHosts (sampleSize ec) ≠ [] := by
        intro h
        exact h0 (by simp [h])
      by_cases hb : r.balance <
          ((r.randomHosts (sampleSize ec)).map HostDesc.price).sum /
            (r.randomHosts (sampleSize ec)).length * dur * size * 2
      · simp only [h0, if_false, hb, if_true]
        constructor
        · intro _
          exact Or.inr (harith ▸ hb)
        · intro _
          simp
      · simp only [h0, if_false, hb, if_true]
        constructor
        · intro h
          exact absurd rfl h
        · intro h
          rcases h with h | h
          · exact absurd h hnil
          · exact absurd (harith ▸ h) hb
  · intro ov up e hext hopen hnick hsize hchk
    have hbig : ¬ 5 * 1024 * 1024 * 1024 < size := by omega
    refine ⟨?_, ?_, ?_⟩ <;> simp [Upload, hext, hopen, hnick, hstat, hbig, hchk]

/-- Environment for the C8 witness: one sampled host of price 10 and
an empty wallet. -/
def pricedHostEnv : RenterEnv :=
  ⟨true, some 1, fun _ => [⟨0, 10⟩], fun _ => none, 0, [], ⟨[], none⟩,
    fun _ => Except.ok [], [], true⟩

/-- C8 witness: a 1-byte, 1-block upload against an average price of
10 and balance 0 is rejected (buffered cost 20 exceeds 0). -/
theorem checkWalletBalance_spec_witness :
    checkWalletBalance pricedHostEnv ⟨1, 1⟩ 1 ≠ none :=
  (checkWalletBalance_spec pricedHostEnv ⟨1, 1⟩ 1 1 rfl).1.mpr (Or.inr (by decide))

/-- C9 counterexample: `Upload` uses a caller-supplied piece size
unchecked; with `PieceSize = 1` the created file record's piece size
is 1, which is not a multiple of the 64-byte segment size, refuting
the claim that every file record created by `Upload` has a
segment-aligned piece size. -/
theorem pieceSize_not_segment_multiple :
    (Upload 0 oneHostEnv ⟨".txt", "a.txt", ".txt", 1, some ⟨1, 2⟩, 1⟩).filePieceSize =
      some 1 ∧ ¬ (1 % segmentSize = 0) :=
  ⟨rfl, by decide⟩

/-- C9 amended: when the caller supplies no piece size, the chosen
default piece size plus the encryption overhead equals 2^22 or 2^16
and is therefore a multiple of the 64-byte segment size — i.e. the
*encrypted* piece is segment-aligned, exactly as the source NOTE at
upload.go lines 21-23 states; a caller-supplied piece size is used
unchecked. -/
theorem default_piece_size_segment_aligned (ov : Nat) (r : RenterEnv)
    (up : FileUploadParams) (size : Nat) (hov : ov ≤ 2 ^ 16)
    (hext : up.filenameExt = up.nicknameExt) (hopen : r.openOk = true)
    (hnick : up.nickname ∉ r.files) (hstat : r.statSize = some size)
    (hsize : size ≤ 5 * 1024 * 1024 * 1024)
    (hchk : checkWalletBalance r (effEC up) (effDuration up) = none)
    (hps0 : up.pieceSize = 0) :
    (Upload ov r up).filePieceSize = some (effPieceSize ov up size) ∧
    (effPieceSize ov up size + ov) % segmentSize = 0 := by
  constructor
  · have hbig : ¬ 5 * 1024 * 1024 * 1024 < size := by omega
    by_cases hlt : ((r.randomHosts (sampleSize (effEC up))).filterMap r.mkSession).length <
        (effEC up).minPieces
    · simp [Upload, hext, hopen, hnick, hstat, hchk, hlt, hbig]
    · cases hrun : (upload r.enc (effPieceSize ov up size * (effEC up).dataPieces)
          (r.stream.bytes.length + 1) r.stream
          ((r.randomHosts (sampleSize (effEC up))).filterMap r.mkSession) r.queues).err with
      | none =>
        cases hsave : r.saveOk with
        | false => simp [Upload, hext, hopen, hnick, hstat, hchk, hlt, hbig, hrun, hsave]
        | true => simp [Upload, hext, hopen, hnick, hstat, hchk, hlt, hbig, hrun, hsave]
      | some e => simp [Upload, hext, hopen, hnick, hstat, hchk, hlt, hbig, hrun]
  · unfold effPieceSize
    rw [if_pos hps0]
    by_cases hd : defaultPieceSize ov < size
    · rw [if_pos hd]
      unfold defaultPieceSize segmentSize
      rw [Nat.sub_add_cancel (le_trans hov (by norm_num))]
      norm_num
    · rw [if_neg hd]
      unfold smallPieceSize segmentSize
      rw [Nat.sub_add_cancel hov]
      norm_num

/-- C9 amended witness: with overhead 28 and a 1-byte file, the small
default piece size 2^16 − 28 is chosen and 2^16 − 28 + 28 is a
multiple of 64. -/
theorem default_piece_size_segment_aligned_witness :
    (Upload 28 oneHostEnv ⟨".txt", "a.txt", ".txt", 1, some ⟨1, 2⟩, 0⟩).filePieceSize =
      some (2 ^ 16 - 28) ∧ (2 ^ 16 - 28 + 28) % segmentSize = 0 :=
  default_piece_size_segment_aligned 28 oneHostEnv ⟨".txt", "a.txt", ".txt", 1, some ⟨1, 2⟩, 0⟩ 1
    (by norm_num) rfl rfl (by simp [oneHostEnv]) rfl (by omega) rfl rfl

end Renter
